import Mathlib

/-!
# PMapper — verification of the spec's claims against the code

The repository's command-line entry point (`principalmapper/__main__.py`) is
embedded directly below in the `Cli` namespace.  The authorization evaluation
engine and the risk/path-finding engine are part of the repository but their
source files are not in the tree under verification, so they are modelled from
the specification text (sections 4.2, 4.4 and 8 of the spec); every such
definition carries a doc comment starting with `Modelled from the spec:`.
-/

namespace Engine

/-- Modelled from the spec: a Statement's Effect is Allow or Deny (spec 3). -/
inductive Effect
  | allow
  | deny
deriving DecidableEq, Repr

/-- Modelled from the spec: glob matching over strings as lists of characters,
`*` matches any run of characters, `?` matches a single character (spec 4.2.5).
Every recursive call shrinks the combined length of pattern and string, so the
fuel argument supplied by `globChars` is never exhausted; it only makes the
recursion structural. -/
def globFuel : Nat → List Char → List Char → Bool
  | 0, _, _ => false
  | fuel + 1, p, s =>
    match p, s with
    | [], s => s.isEmpty
    | c :: ps, s =>
      if c = '*' then
        (globFuel fuel ps s ||
          match s with
          | [] => false
          | _ :: ds => globFuel fuel (c :: ps) ds)
      else
        match s with
        | [] => false
        | d :: ds => (c = '?' || c = d) && globFuel fuel ps ds

/-- Glob matching with sufficient fuel. -/
def globChars (p : List Char) (s : List Char) : Bool :=
  globFuel (p.length + s.length + 1) p s

/-- Modelled from the spec: glob matching on whole strings (spec 4.2.5/4.2.6). -/
def globMatch (pattern s : String) : Bool :=
  globChars pattern.data s.data

/-- ASCII lowercasing of one character. -/
def lowerChar (c : Char) : Char :=
  if 65 ≤ c.toNat ∧ c.toNat ≤ 90 then Char.ofNat (c.toNat + 32) else c

/-- ASCII lowercasing of a string, used for the case-insensitive matching the
spec prescribes (spec 4.2.5, 4.2.7). -/
def strLower (s : String) : String := ⟨s.data.map lowerChar⟩

/-- Parsing a decimal numeral, used by the numeric condition operators; a
non-numeral fails to parse and the operator is then non-matching. -/
def toNatQ (s : String) : Option Nat :=
  if s.data ≠ [] ∧ s.data.all Char.isDigit then
    some (s.data.foldl (fun n c => 10 * n + (c.toNat - 48)) 0)
  else none

/-- Modelled from the spec: the enumerable subset of condition operator
families the engine supports (spec 4.2.7); an operator outside the subset is
treated as non-matching ("fails closed", spec 1 non-goals). -/
inductive CondOp
  | stringEquals
  | stringEqualsIgnoreCase
  | stringLike
  | stringNotEquals
  | boolCheck
  | numericEquals
  | numericLessThan
  | unsupported
deriving DecidableEq, Repr

/-- Modelled from the spec: whether all or any of a multi-valued context entry
must satisfy the operator (spec 4.2.7). -/
inductive CondQualifier
  | defaultQual
  | forAllValues
  | forAnyValue
deriving DecidableEq, Repr

/-- Modelled from the spec: one condition entry, `(operator, key) -> expected
values` with an optional qualifier (spec 3, 4.2.7). -/
structure ConditionEntry where
  op : CondOp
  key : String
  expected : List String
  qual : CondQualifier
deriving DecidableEq, Repr

/-- Modelled from the spec: the request context, a mapping from condition-key
strings to one or more literal values (spec 6); a repeated key supplies a
multi-valued entry. -/
abbrev Context := List (String × String)

/-- All values the request context supplies for a key. -/
def contextValues (ctx : Context) (key : String) : List String :=
  (ctx.filter (fun kv => kv.1 == key)).map Prod.snd

/-- Modelled from the spec: applying one supported operator to one context
value against the expected values (any expected value may match, spec 4.2.7);
numeric operators that fail to parse, and unsupported operators, are
non-matching. -/
def applyCondOp (op : CondOp) (v : String) (expected : List String) : Bool :=
  match op with
  | .stringEquals => expected.any (fun e => e == v)
  | .stringEqualsIgnoreCase => expected.any (fun e => strLower e == strLower v)
  | .stringLike => expected.any (fun e => globMatch e v)
  | .stringNotEquals => expected.all (fun e => !(e == v))
  | .boolCheck => expected.any (fun e => strLower e == strLower v)
  | .numericEquals =>
    match toNatQ v with
    | none => false
    | some n => expected.any (fun e => toNatQ e == some n)
  | .numericLessThan =>
    match toNatQ v with
    | none => false
    | some n => expected.any (fun e =>
        match toNatQ e with
        | none => false
        | some m => n < m)
  | .unsupported => false

/-- Modelled from the spec: evaluating one condition entry against the request
context.  A key absent from the supplied request context causes the condition
to evaluate false, not an error (spec 4.2.7, 6); the ForAllValues/ForAnyValue
qualifiers quantify over the multi-valued context entry. -/
def evalCondEntry (ctx : Context) (e : ConditionEntry) : Bool :=
  match contextValues ctx e.key with
  | [] => false
  | v :: vs =>
    match e.qual with
    | .forAllValues => (v :: vs).all (fun w => applyCondOp e.op w e.expected)
    | .forAnyValue => (v :: vs).any (fun w => applyCondOp e.op w e.expected)
    | .defaultQual => (v :: vs).any (fun w => applyCondOp e.op w e.expected)

/-- Modelled from the spec: a policy Statement — Effect, Action matcher
(patterns, optionally negated via NotAction), Resource matcher (patterns,
optionally negated via NotResource), optional Condition block (spec 3). -/
structure Statement where
  effect : Effect
  actionPatterns : List String
  notAction : Bool
  resourcePatterns : List String
  notResource : Bool
  conditions : List ConditionEntry
deriving DecidableEq, Repr

/-- Modelled from the spec: a Policy, an identifier and an ordered set of
Statements (spec 3). -/
structure Policy where
  name : String
  statements : List Statement
deriving DecidableEq, Repr

/-- Modelled from the spec: a Group with its attached policies (spec 3). -/
structure Group where
  name : String
  attachedPolicies : List Policy
deriving DecidableEq, Repr

/-- Modelled from the spec: a Principal is a User or a Role (spec 3). -/
inductive PrincipalKind
  | user
  | role
deriving DecidableEq, Repr

/-- Modelled from the spec: a Principal — identifier, kind, attached managed
policies, inline policies, optional permissions boundary, group memberships
(Users only; the gathering step ignores groups for Roles) (spec 3). -/
structure Principal where
  arn : String
  kind : PrincipalKind
  inlinePolicies : List Policy
  attachedPolicies : List Policy
  groups : List Group
  permissionsBoundary : Option Policy
deriving DecidableEq, Repr

/-- Modelled from the spec: action matching is case-insensitive glob matching
against the statement's action patterns; NotAction inverts the matched set
(spec 4.2.5). -/
def actionMatches (st : Statement) (action : String) : Bool :=
  let m := st.actionPatterns.any (fun p => globMatch (strLower p) (strLower action))
  if st.notAction then !m else m

/-- Modelled from the spec: resource matching applies the same glob semantics
to the full resource identifier; NotResource inverts (spec 4.2.6).
Policy-variable substitution is not modelled (no claim depends on it). -/
def resourceMatches (st : Statement) (resource : String) : Bool :=
  let m := st.resourcePatterns.any (fun p => globMatch p resource)
  if st.notResource then !m else m

/-- Modelled from the spec: a statement matches a request when its Action,
Resource and every Condition entry all match (spec 4.2.4). -/
def stmtMatches (st : Statement) (action resource : String) (ctx : Context) : Bool :=
  actionMatches st action && resourceMatches st resource &&
    st.conditions.all (fun e => evalCondEntry ctx e)

end Engine

namespace Engine

/-- Modelled from the spec: S_identity — statements gathered from the
principal's inline policies, attached managed policies, and (for a User)
policies attached to each Group the principal belongs to (spec 4.2.1). -/
def gatherIdentityStatements (p : Principal) : List Statement :=
  (p.inlinePolicies.flatMap Policy.statements) ++
  (p.attachedPolicies.flatMap Policy.statements) ++
  (match p.kind with
   | .user => p.groups.flatMap (fun g => g.attachedPolicies.flatMap Policy.statements)
   | .role => [])

/-- Modelled from the spec: S_boundary — the permissions boundary's statements
when a boundary is attached (spec 4.2.2). -/
def gatherBoundaryStatements (p : Principal) : List Statement :=
  (p.permissionsBoundary.map Policy.statements).getD []

/-- Modelled from the spec: S_resource — the supplied resource policy's
statements (spec 4.2.3). -/
def gatherResourceStatements (resourcePolicy : Option Policy) : List Statement :=
  (resourcePolicy.map Policy.statements).getD []

/-- Modelled from the spec: the outcome of a Decision (spec 3). -/
inductive Outcome
  | allow
  | deny
  | implicitDeny
deriving DecidableEq, Repr

/-- Which statement set a cited statement came from. -/
inductive StmtSource
  | identity
  | boundary
  | resourcePolicy
deriving DecidableEq, Repr

/-- Modelled from the spec: a Decision — outcome plus the matched statement and
its source, carried so the result can explain why (spec 3, 4.2.8). -/
structure Decision where
  outcome : Outcome
  matched : Option (StmtSource × Statement)
deriving DecidableEq, Repr

/-- The three gathered statement sets, each statement tagged with its source,
in the order S_identity, S_boundary, S_resource (spec 4.2.1-4.2.3). -/
def taggedStatements (p : Principal) (resourcePolicy : Option Policy) :
    List (StmtSource × Statement) :=
  (gatherIdentityStatements p).map (fun s => (StmtSource.identity, s)) ++
  (gatherBoundaryStatements p).map (fun s => (StmtSource.boundary, s)) ++
  (gatherResourceStatements resourcePolicy).map (fun s => (StmtSource.resourcePolicy, s))

/-- Modelled from the spec: step (c) of the evaluation order — if a resource
policy was supplied and grants an Allow match, accept that as Allow, else
ImplicitDeny (spec 4.2.4 c-d). -/
def resourceFallback (sResource : List Statement) (action resource : String)
    (ctx : Context) : Decision :=
  match sResource.find? (fun s => s.effect == Effect.allow && stmtMatches s action resource ctx) with
  | some s => ⟨Outcome.allow, some (StmtSource.resourcePolicy, s)⟩
  | none => ⟨Outcome.implicitDeny, none⟩

/-- Modelled from the spec: the authorization evaluation engine,
`evaluate(principal, action, resource, context, resource_policy?,
resource_owner?) -> Decision` (spec 4.2).  Evaluation order: (a) any explicit
Deny among S_identity, S_boundary, S_resource that matches the request wins and
is cited; (b) otherwise an Allow match in S_identity is required, and when a
boundary is attached the request must also be matched by an Allow in
S_boundary; (c) otherwise a supplied resource policy granting an Allow match
yields Allow (the resource owner argument establishes same- versus
cross-account context and does not change the decision steps); (d) otherwise
ImplicitDeny (spec 4.2.4). -/
def evaluate (p : Principal) (action resource : String) (ctx : Context)
    (resourcePolicy : Option Policy) (resourceOwner : Option String) : Decision :=
  let sIdentity := gatherIdentityStatements p
  let sBoundary := gatherBoundaryStatements p
  let sResource := gatherResourceStatements resourcePolicy
  match (taggedStatements p resourcePolicy).find?
      (fun t => t.2.effect == Effect.deny && stmtMatches t.2 action resource ctx) with
  | some t => ⟨Outcome.deny, some t⟩
  | none =>
    match sIdentity.find? (fun s => s.effect == Effect.allow && stmtMatches s action resource ctx) with
    | some s =>
      match p.permissionsBoundary with
      | some _ =>
        if sBoundary.any (fun b => b.effect == Effect.allow && stmtMatches b action resource ctx) then
          ⟨Outcome.allow, some (StmtSource.identity, s)⟩
        else
          resourceFallback sResource action resource ctx
      | none => ⟨Outcome.allow, some (StmtSource.identity, s)⟩
    | none => resourceFallback sResource action resource ctx

/-- Modelled from the spec: the request-validation failure mode — a malformed
request (missing action or resource) raises `InvalidRequestError`; everything
else resolves to a Decision (spec 4.2 failure modes, 7). -/
inductive RequestError
  | invalidRequestError
deriving DecidableEq, Repr

/-- Modelled from the spec: evaluation of a possibly malformed request; a
missing action or resource is the only failure, and it is
`InvalidRequestError` (spec 4.2 failure modes). -/
def evaluateRequest (p : Principal) (action? resource? : Option String) (ctx : Context)
    (resourcePolicy : Option Policy) (resourceOwner : Option String) :
    Except RequestError Decision :=
  match action?, resource? with
  | some a, some r => Except.ok (evaluate p a r ctx resourcePolicy resourceOwner)
  | none, _ => Except.error RequestError.invalidRequestError
  | _, none => Except.error RequestError.invalidRequestError

end Engine

namespace Risk

/-- Modelled from the spec: an escalation Edge — directed relation between two
principals, a reason tag, and a flag for whether traversal needs extra context
(spec 3). -/
structure Edge where
  source : String
  dest : String
  reason : String
  conditional : Bool
deriving DecidableEq, Repr

/-- Modelled from the spec: the Graph aggregate — the set of Principals and the
computed Edge collection (spec 3); account metadata, policies and groups are
held inside the principals and are not needed by the path search. -/
structure Graph where
  principals : List Engine.Principal
  edges : List Edge
deriving Repr

/-- The principal identifiers of a graph. -/
def nodeIds (g : Graph) : List String :=
  g.principals.map Engine.Principal.arn

/-- Modelled from the spec: a principal is administrator-equivalent when the
evaluation engine grants it the canonical always-true request — any action on
any resource with no condition dependency (spec 4.4). -/
def isAdminEquivalent (p : Engine.Principal) : Bool :=
  (Engine.evaluate p "*" "*" [] none none).outcome == Engine.Outcome.allow

/-- Identifiers of the administrator-equivalent principals of a graph. -/
def adminIds (g : Graph) : List String :=
  (g.principals.filter isAdminEquivalent).map Engine.Principal.arn

/-- Destinations of the edges leaving a node. -/
def successors (g : Graph) (n : String) : List String :=
  (g.edges.filter (fun e => e.source == n)).map Edge.dest

/-- Modelled from the spec: the next breadth-first frontier — successors of the
current frontier that are not already tracked in the visited set (spec 4.4,
visited-set tracking avoids cycles), deduplicated. -/
def nextFrontier (g : Graph) (visited frontier : List String) : List String :=
  ((frontier.flatMap (successors g)).filter
    (fun m => !(visited.contains m) && !(frontier.contains m))).dedup

/-- Modelled from the spec: breadth-first search by levels over the Edge
collection (spec 4.4).  `visited` holds every principal reached at a smaller
depth, `frontier` the principals first reached at depth `d`; each level reports
its nodes with their depth.  The fuel argument only bounds the recursion for
Lean; the search stops on an empty frontier, and the visited set guarantees the
frontier empties before the fuel (one more than the principal count) runs out. -/
def bfsLevels (g : Graph) : Nat → List String → List String → Nat → List (String × Nat)
  | 0, _, _, _ => []
  | fuel + 1, visited, frontier, d =>
    if frontier.isEmpty then []
    else
      frontier.map (fun n => (n, d)) ++
        bfsLevels g fuel (visited ++ frontier) (nextFrontier g visited frontier) (d + 1)

/-- Modelled from the spec: the breadth-first search from one source principal,
returning each reached principal with its shortest hop count (spec 4.4). -/
def bfs (g : Graph) (src : String) : List (String × Nat) :=
  bfsLevels g (g.principals.length + 1) [] [src] 0

/-- Modelled from the spec: a Finding — a principal, the administrator-
equivalent principal reached, and the hop count of the shortest path (spec 3;
severity is derived from the hop count and is not needed by the claims). -/
structure Finding where
  principal : String
  endpoint : String
  hops : Nat
deriving DecidableEq, Repr

/-- Modelled from the spec: `find_escalation_paths(graph) -> list<Finding>` —
principals already administrator-equivalent are reported as zero-hop findings;
every other principal is reported with the shortest breadth-first path to each
administrator-equivalent principal it can reach (spec 4.4). -/
def find_escalation_paths (g : Graph) : List Finding :=
  (adminIds g).map (fun a => ⟨a, a, 0⟩) ++
    ((nodeIds g).filter (fun n => !(adminIds g).contains n)).flatMap
      (fun src => (bfs g src).filterMap
        (fun nd => if (adminIds g).contains nd.1 then some ⟨src, nd.1, nd.2⟩ else none))

/-- A walk of length `k` along the graph's edges. -/
inductive Steps (g : Graph) : String → String → Nat → Prop
  | refl (n : String) : Steps g n n 0
  | tail {a b c : String} {k : Nat} :
      Steps g a b k → c ∈ successors g b → Steps g a c (k + 1)

/-- `d` is the length of a shortest walk from `src` to `n`. -/
def IsDist (g : Graph) (src n : String) (d : Nat) : Prop :=
  Steps g src n d ∧ ∀ k, Steps g src n k → d ≤ k

/-- The spec's Graph invariant: every Edge's endpoints reference Principals
present in the same Graph (spec 3). -/
def EdgeClosed (g : Graph) : Prop :=
  ∀ e ∈ g.edges, e.source ∈ nodeIds g ∧ e.dest ∈ nodeIds g

end Risk

namespace Cli

/-- Command-line strings are modelled as lists of characters, so that the
character-level processing of `__main__.py` (splitting condition arguments on
the equals sign) is directly analysable. -/
abbrev CStr := List Char

/-- Python's `str.split(sep)` for a one-character separator, as performed by
`arg.split('=')` in `handle_argquery` (`__main__.py` line 197): the result
always has at least one piece, and has one piece exactly when the separator
does not occur. -/
def splitChar (sep : Char) : CStr → List CStr
  | [] => [[]]
  | c :: cs =>
    if c = sep then [] :: splitChar sep cs
    else (c :: (splitChar sep cs).headD []) :: (splitChar sep cs).tail

/-- Python's `sep.join(pieces)` for a one-character separator, as performed by
`'='.join(components[1:])` in `handle_argquery` (`__main__.py` line 202). -/
def joinChar (sep : Char) : List CStr → CStr
  | [] => []
  | [x] => x
  | x :: y :: t => x ++ sep :: joinChar sep (y :: t)

/-- Python's `dict.update({key: value})` on a string-keyed dict modelled as an
insertion-ordered association list: an existing key keeps its position and gets
the new value, a new key is appended (`__main__.py` line 203). -/
def dictUpdate (d : List (CStr × CStr)) (k v : CStr) : List (CStr × CStr) :=
  if d.any (fun p => p.1 == k) then
    d.map (fun p => if p.1 == k then (k, v) else p)
  else
    d ++ [(k, v)]

/-- Python's `dict[key]` lookup on the association-list model. -/
def dictFind (d : List (CStr × CStr)) (k : CStr) : Option CStr :=
  (d.find? (fun p => p.1 == k)).map Prod.snd

/-- The loop over `parsed_args.condition` in `handle_argquery` (`__main__.py`
lines 193-203): each argument is split on `'='`; fewer than two components
means a format error (the handler prints a message and returns 64, modelled as
`none`); otherwise the first component is the key, the remaining components
rejoined with `'='` are the value, and the dict is updated. -/
def processConditionArgs : List CStr → List (CStr × CStr) → Option (List (CStr × CStr))
  | [], acc => some acc
  | a :: rest, acc =>
    let components := splitChar '=' a
    if components.length < 2 then none
    else processConditionArgs rest (dictUpdate acc (components.headD []) (joinChar '=' components.tail))

/-- The attributes of the parsed `argparse` namespace that the handlers in
`__main__.py` read. -/
structure CliParsedArgs where
  profile : Option CStr
  account : Option CStr
  picked_cmd : Option CStr
  condition : Option (List CStr)
  grab_resource_policy : Bool
  resource_policy_text : Option CStr
  resource_owner : Option CStr
  principal : CStr
  action : CStr
  resource : CStr
  preset : Option CStr
  skip_admin : Bool
  include_unauthorized : Bool
  query : CStr
  only_privesc : Bool
deriving DecidableEq, Repr

/-- A botocore session; `botocore_tools.get_session(profile)` is external to
the file under verification and is modelled as succeeding, so a session exists
exactly when `_grab_session` chooses to create one. -/
structure Session where
  profile : Option CStr
deriving DecidableEq, Repr

/-- `_grab_session` (`__main__.py` lines 263-267): a session is created only
when `--account` was not supplied. -/
def grab_session (pa : CliParsedArgs) : Option Session :=
  match pa.account with
  | none => some ⟨pa.profile⟩
  | some _ => none

/-- Python truthiness of an optional string, as tested by
`elif parsed_args.resource_policy_text:` (`__main__.py` lines 173, 209). -/
def truthy : Option CStr → Bool
  | none => false
  | some s => !s.isEmpty

/-- The exceptions relevant to the handlers: the plain `ValueError` raised by
`handle_query`/`handle_argquery`, alongside the spec's typed errors (spec 7)
for contrast. -/
inductive PyExn
  | valueError
  | policyParseError
  | invalidRequestError
  | notFoundError
  | unsupportedConditionOperatorError
deriving DecidableEq, Repr

/-- How the resource policy passed to the query engine was obtained:
`query_utils.pull_cached_resource_policy_by_arn` (with the recorded argument),
`json.loads` of the `--resource-policy-text` argument (recorded verbatim; both
callees are external to the file under verification and modelled as
succeeding), or absent. -/
inductive ResourcePolicySource
  | pulled (arg : CStr)
  | fromText (text : CStr)
  | noPolicy
deriving DecidableEq, Repr

/-- The outcome of one handler: an early `return` with an exit code before any
query-engine call, a raised exception, or a query-engine call followed by a
returned exit code. -/
inductive HandlerResult (C : Type)
  | exited (code : Nat)
  | raised (e : PyExn)
  | ran (call : C) (code : Nat)
deriving DecidableEq, Repr

/-- The argument record of the `query_actions.query_response` call made by
`handle_query` (`__main__.py` lines 180-182), minus the graph object. -/
structure QueryCall where
  query : CStr
  skip_admin : Bool
  resource_policy : ResourcePolicySource
  resource_owner : Option CStr
  include_unauthorized : Bool
deriving DecidableEq, Repr

/-- The argument record of the `query_actions.argquery` call made by
`handle_argquery` (`__main__.py` lines 214-216), minus the graph object, in
the source's argument order. -/
structure ArgqueryCall where
  principal : CStr
  action : CStr
  resource : CStr
  conditions : List (CStr × CStr)
  preset : Option CStr
  skip_admin : Bool
  resource_policy : ResourcePolicySource
  resource_owner : Option CStr
  include_unauthorized : Bool
deriving DecidableEq, Repr

/-- `handle_query` (`__main__.py` lines 164-184).  The graph is loaded by the
external `get_existing_graph`; with `--grab-resource-policy` and no session the
handler raises a plain `ValueError`, otherwise it calls
`query_actions.query_response` and returns 0. -/
def handle_query (pa : CliParsedArgs) : HandlerResult QueryCall :=
  let session := grab_session pa
  if pa.grab_resource_policy then
    match session with
    | none => .raised .valueError
    | some _ =>
      .ran ⟨pa.query, pa.skip_admin, .pulled pa.query, pa.resource_owner,
            pa.include_unauthorized⟩ 0
  else if truthy pa.resource_policy_text then
    .ran ⟨pa.query, pa.skip_admin, .fromText (pa.resource_policy_text.getD []),
          pa.resource_owner, pa.include_unauthorized⟩ 0
  else
    .ran ⟨pa.query, pa.skip_admin, .noPolicy, pa.resource_owner,
          pa.include_unauthorized⟩ 0

/-- `handle_argquery` (`__main__.py` lines 187-218).  Condition arguments are
processed first (a malformed one returns 64); then with
`--grab-resource-policy` and no session the handler raises a plain
`ValueError`; otherwise `query_actions.argquery` is called and 0 returned. -/
def handle_argquery (pa : CliParsedArgs) : HandlerResult ArgqueryCall :=
  let session := grab_session pa
  match processConditionArgs (pa.condition.getD []) [] with
  | none => .exited 64
  | some conditions =>
    if pa.grab_resource_policy then
      match session with
      | none => .raised .valueError
      | some _ =>
        .ran ⟨pa.principal, pa.action, pa.resource, conditions, pa.preset,
              pa.skip_admin, .pulled pa.resource, pa.resource_owner,
              pa.include_unauthorized⟩ 0
    else if truthy pa.resource_policy_text then
      .ran ⟨pa.principal, pa.action, pa.resource, conditions, pa.preset,
            pa.skip_admin, .fromText (pa.resource_policy_text.getD []),
            pa.resource_owner, pa.include_unauthorized⟩ 0
    else
      .ran ⟨pa.principal, pa.action, pa.resource, conditions, pa.preset,
            pa.skip_admin, .noPolicy, pa.resource_owner,
            pa.include_unauthorized⟩ 0

/-- `handle_repl` (`__main__.py` lines 221-229): loads the graph, runs the REPL
(both external), returns 0. -/
def handle_repl (_ : CliParsedArgs) : HandlerResult Unit :=
  .ran () 0

/-- `handle_visualization` (`__main__.py` lines 232-248): loads the graph,
writes the image file (both external), returns 0. -/
def handle_visualization (_ : CliParsedArgs) : HandlerResult Unit :=
  .ran () 0

/-- `handle_analysis` (`__main__.py` lines 251-260): loads the graph, generates
and prints findings (both external), returns 0. -/
def handle_analysis (_ : CliParsedArgs) : HandlerResult Unit :=
  .ran () 0

/-- Which query-engine entry point, if any, a run of `main` reached. -/
inductive CliCall
  | graphC
  | queryC (c : QueryCall)
  | argqueryC (c : ArgqueryCall)
  | replC
  | visualizeC
  | analysisC
deriving DecidableEq, Repr

/-- Embeds one handler's result into the common result type of `main`. -/
def liftResult {C : Type} (f : C → CliCall) : HandlerResult C → HandlerResult CliCall
  | .exited n => .exited n
  | .raised e => .raised e
  | .ran c n => .ran (f c) n

/-- The dispatch of `main` (`__main__.py` lines 148-161): each recognized
subcommand returns its handler's value — the `graph` subcommand delegates to
the external `graphing_cli.process_arguments`, whose return value is the
`graphReturn` parameter — and anything else falls through to `return 64`. -/
def main (graphReturn : Nat) (pa : CliParsedArgs) : HandlerResult CliCall :=
  match pa.picked_cmd with
  | none => .exited 64
  | some cmd =>
    if cmd = "graph".data then .ran .graphC graphReturn
    else if cmd = "query".data then liftResult .queryC (handle_query pa)
    else if cmd = "argquery".data then liftResult .argqueryC (handle_argquery pa)
    else if cmd = "repl".data then liftResult (fun _ => .replC) (handle_repl pa)
    else if cmd = "visualize".data then liftResult (fun _ => .visualizeC) (handle_visualization pa)
    else if cmd = "analysis".data then liftResult (fun _ => .analysisC) (handle_analysis pa)
    else .exited 64

end Cli

namespace Engine

/-- An unconditional Allow of every action on every resource. -/
def stmtAllowAll : Statement := ⟨Effect.allow, ["*"], false, ["*"], false, []⟩

/-- An unconditional Deny of every action on every resource. -/
def stmtDenyAll : Statement := ⟨Effect.deny, ["*"], false, ["*"], false, []⟩

/-- An unconditional Allow of `s3:GetObject` on every resource. -/
def stmtAllowGet : Statement := ⟨Effect.allow, ["s3:GetObject"], false, ["*"], false, []⟩

/-- The condition `aws:MultiFactorAuthPresent = false` of the spec's MFA
scenario (spec 8). -/
def mfaCond : ConditionEntry :=
  ⟨CondOp.boolCheck, "aws:MultiFactorAuthPresent", ["false"], CondQualifier.defaultQual⟩

/-- A Deny of `s3:GetObject` guarded by the MFA-absent condition (spec 8). -/
def stmtDenyNoMfa : Statement :=
  ⟨Effect.deny, ["s3:GetObject"], false, ["*"], false, [mfaCond]⟩

/-- A user with the given inline policies and optional boundary. -/
def userWith (inline : List Policy) (boundary : Option Policy) : Principal :=
  ⟨"arn:aws:iam::000000000000:user/alice", PrincipalKind.user, inline, [], [], boundary⟩

/-- A user with no policies at all. -/
def pEmpty : Principal := userWith [] none

/-- A user whose only statement is an unconditional Deny of everything. -/
def pDenyOnly : Principal := userWith [⟨"denyall", [stmtDenyAll]⟩] none

/-- A user carrying both an Allow and a Deny matching the same requests. -/
def pAllowDeny : Principal := userWith [⟨"both", [stmtAllowAll, stmtDenyAll]⟩] none

/-- The spec's MFA scenario: an unconditional Allow together with a Deny
conditioned on `aws:MultiFactorAuthPresent = false` (spec 8). -/
def pMfa : Principal := userWith [⟨"mfa", [stmtAllowGet, stmtDenyNoMfa]⟩] none

/-- A user allowed `s3:GetObject` by an inline policy, under an allow-all
permissions boundary. -/
def pBounded : Principal :=
  userWith [⟨"allowget", [stmtAllowGet]⟩] (some ⟨"boundary", [stmtAllowAll]⟩)

end Engine

namespace Risk

/-- A principal named `A` with no permissions. -/
def pA : Engine.Principal := ⟨"A", Engine.PrincipalKind.user, [], [], [], none⟩

/-- A principal named `B` with no permissions. -/
def pB : Engine.Principal := ⟨"B", Engine.PrincipalKind.user, [], [], [], none⟩

/-- An administrator-equivalent principal named `C`. -/
def pCAdmin : Engine.Principal :=
  ⟨"C", Engine.PrincipalKind.user, [⟨"adminpol", [Engine.stmtAllowAll]⟩], [], [], none⟩

/-- The spec's cycle-safety scenario (spec 8): `A` and `B` can each assume the
other (a 2-principal cycle), and `B` can additionally assume the
administrator-equivalent `C`. -/
def gCyc : Graph :=
  ⟨[pA, pB, pCAdmin],
   [⟨"A", "B", "can assume role", false⟩,
    ⟨"B", "A", "can assume role", false⟩,
    ⟨"B", "C", "can assume role", false⟩]⟩

end Risk

namespace Cli

/-- A parsed-args record with every optional argument absent and every flag
off. -/
def paBase : CliParsedArgs :=
  ⟨none, none, none, none, false, none, none, [], [], [], none, false, false, [], false⟩

/-- An argquery invocation with one well-formed condition argument. -/
def paCond : CliParsedArgs :=
  { paBase with
      picked_cmd := some "argquery".data
      principal := "u1".data
      action := "s3:GetObject".data
      resource := "*".data
      condition := some ["aws:username=alice".data] }

/-- An argquery invocation whose condition argument contains no equals sign. -/
def paCondBad : CliParsedArgs :=
  { paBase with
      picked_cmd := some "argquery".data
      condition := some ["noequalssign".data] }

/-- A query/argquery invocation with `--grab-resource-policy` while `--account`
was supplied, so no botocore session exists. -/
def paOffline : CliParsedArgs :=
  { paBase with
      grab_resource_policy := true
      account := some "000000000000".data }

/-- The offline grab-resource-policy invocation combined with a malformed
condition argument. -/
def paOfflineBadCond : CliParsedArgs :=
  { paOffline with condition := some ["noequalssign".data] }

end Cli

namespace Engine

theorem mem_tagged_identity (p : Principal) (rp : Option Policy) (s : Statement)
    (hs : s ∈ gatherIdentityStatements p) :
    (StmtSource.identity, s) ∈ taggedStatements p rp := by
  unfold taggedStatements
  exact List.mem_append_left _ (List.mem_append_left _ (List.mem_map_of_mem _ hs))

theorem mem_tagged_resource (p : Principal) (rp : Option Policy) (s : Statement)
    (hs : s ∈ gatherResourceStatements rp) :
    (StmtSource.resourcePolicy, s) ∈ taggedStatements p rp := by
  unfold taggedStatements
  exact List.mem_append_right _ (List.mem_map_of_mem _ hs)

/-- C1: for every authorization request for which both an Allow statement and
an explicit Deny statement (from any of the identity policies, the permissions
boundary, or the supplied resource policy) match the request's action,
resource, and conditions, `evaluate` returns a Decision whose outcome is Deny,
citing the matching Deny statement. -/
theorem deny_precedence (p : Principal) (a r : String) (ctx : Context)
    (rp : Option Policy) (ro : Option String)
    (hAllow : ∃ t ∈ taggedStatements p rp,
      t.2.effect = Effect.allow ∧ stmtMatches t.2 a r ctx = true)
    (hDeny : ∃ t ∈ taggedStatements p rp,
      t.2.effect = Effect.deny ∧ stmtMatches t.2 a r ctx = true) :
    (evaluate p a r ctx rp ro).outcome = Outcome.deny ∧
      ∃ t, (evaluate p a r ctx rp ro).matched = some t ∧
        t.2.effect = Effect.deny ∧ stmtMatches t.2 a r ctx = true := by
  have hfind : ((taggedStatements p rp).find?
      (fun t => t.2.effect == Effect.deny && stmtMatches t.2 a r ctx)).isSome := by
    rw [List.find?_isSome]
    obtain ⟨t, ht, he, hm⟩ := hDeny
    exact ⟨t, ht, by simp [he, hm]⟩
  obtain ⟨t, hteq⟩ := Option.isSome_iff_exists.mp hfind
  have hp := List.find?_some hteq
  simp only [Bool.and_eq_true, beq_iff_eq] at hp
  constructor
  · simp only [evaluate, hteq]
  · exact ⟨t, by simp only [evaluate, hteq], hp.1, hp.2⟩

/-- C2 counterexample: for the request `s3:GetObject` on resource `r` by a
principal whose only statement is an unconditional Deny, no Allow statement
anywhere matches, yet `evaluate` returns Deny, not ImplicitDeny. -/
theorem implicit_deny_counterexample :
    (∀ t ∈ taggedStatements pDenyOnly none,
        ¬(t.2.effect = Effect.allow ∧ stmtMatches t.2 "s3:GetObject" "r" [] = true)) ∧
      (evaluate pDenyOnly "s3:GetObject" "r" [] none none).outcome = Outcome.deny ∧
      (evaluate pDenyOnly "s3:GetObject" "r" [] none none).outcome ≠ Outcome.implicitDeny := by
  decide

/-- C2 (amended): for every authorization request in which no Allow statement
anywhere matches and additionally no explicit Deny statement matches,
`evaluate` returns a Decision whose outcome is ImplicitDeny. -/
theorem implicit_deny_default (p : Principal) (a r : String) (ctx : Context)
    (rp : Option Policy) (ro : Option String)
    (hNoAllow : ∀ t ∈ taggedStatements p rp,
      t.2.effect = Effect.allow → stmtMatches t.2 a r ctx = false)
    (hNoDeny : ∀ t ∈ taggedStatements p rp,
      t.2.effect = Effect.deny → stmtMatches t.2 a r ctx = false) :
    (evaluate p a r ctx rp ro).outcome = Outcome.implicitDeny := by
  have hD : (taggedStatements p rp).find?
      (fun t => t.2.effect == Effect.deny && stmtMatches t.2 a r ctx) = none := by
    rw [List.find?_eq_none]
    intro t ht
    simp only [Bool.and_eq_true, beq_iff_eq, not_and]
    intro he
    rw [hNoDeny t ht he]
    simp
  have hI : (gatherIdentityStatements p).find?
      (fun s => s.effect == Effect.allow && stmtMatches s a r ctx) = none := by
    rw [List.find?_eq_none]
    intro s hs
    simp only [Bool.and_eq_true, beq_iff_eq, not_and]
    intro he
    rw [hNoAllow (StmtSource.identity, s) (mem_tagged_identity p rp s hs) he]
    simp
  have hR : (gatherResourceStatements rp).find?
      (fun s => s.effect == Effect.allow && stmtMatches s a r ctx) = none := by
    rw [List.find?_eq_none]
    intro s hs
    simp only [Bool.and_eq_true, beq_iff_eq, not_and]
    intro he
    rw [hNoAllow (StmtSource.resourcePolicy, s) (mem_tagged_resource p rp s hs) he]
    simp
  simp only [evaluate, hD, hI, resourceFallback, hR]

/-- Closed instance of `implicit_deny_default`: a principal with no policies at
all gets ImplicitDeny. -/
theorem implicit_deny_default_witness :
    (evaluate pEmpty "s3:GetObject" "r" [] none none).outcome = Outcome.implicitDeny :=
  implicit_deny_default pEmpty "s3:GetObject" "r" [] none none (by decide) (by decide)

/-- Closed instance of `deny_precedence`: a principal with an allow-everything
and a deny-everything statement is denied. -/
theorem deny_precedence_witness :
    (evaluate pAllowDeny "s3:GetObject" "r" [] none none).outcome = Outcome.deny ∧
      ∃ t, (evaluate pAllowDeny "s3:GetObject" "r" [] none none).matched = some t ∧
        t.2.effect = Effect.deny ∧ stmtMatches t.2 "s3:GetObject" "r" [] = true :=
  deny_precedence pAllowDeny "s3:GetObject" "r" [] none none (by decide) (by decide)

end Engine

namespace Engine

/-- C3: for a principal with a permissions boundary attached, every request
that `evaluate` decides as Allow via the identity path is allowed by the
identity policies alone — evaluating the same principal with the boundary
removed (and no resource policy) still yields Allow.  The boundary only
removes allowed requests; it never adds one the identity policies do not
allow. -/
theorem boundary_narrowing (p : Principal) (a r : String) (ctx : Context)
    (rp : Option Policy) (ro : Option String) (st : Statement)
    (hb : p.permissionsBoundary.isSome = true)
    (hallow : (evaluate p a r ctx rp ro).outcome = Outcome.allow)
    (hsrc : (evaluate p a r ctx rp ro).matched = some (StmtSource.identity, st)) :
    (evaluate { p with permissionsBoundary := none } a r ctx none none).outcome
      = Outcome.allow := by
  cases hD : (taggedStatements p rp).find?
      (fun t => t.2.effect == Effect.deny && stmtMatches t.2 a r ctx) with
  | some t =>
    simp only [evaluate, hD] at hallow
    simp at hallow
  | none =>
    cases hI : (gatherIdentityStatements p).find?
        (fun s => s.effect == Effect.allow && stmtMatches s a r ctx) with
    | none =>
      simp only [evaluate, hD, hI, resourceFallback] at hsrc
      cases hR : (gatherResourceStatements rp).find?
          (fun s => s.effect == Effect.allow && stmtMatches s a r ctx) with
      | some s0 => rw [hR] at hsrc; simp at hsrc
      | none => rw [hR] at hsrc; simp at hsrc
    | some s0 =>
      have hD' : (taggedStatements { p with permissionsBoundary := none } none).find?
          (fun t => t.2.effect == Effect.deny && stmtMatches t.2 a r ctx) = none := by
        rw [List.find?_eq_none]
        intro t ht
        have hmem : t ∈ (gatherIdentityStatements p).map
            (fun s => (StmtSource.identity, s)) := by
          simpa [taggedStatements, gatherBoundaryStatements,
            gatherResourceStatements] using ht
        obtain ⟨s, hs, rfl⟩ := List.mem_map.mp hmem
        exact (List.find?_eq_none.mp hD) _ (mem_tagged_identity p rp s hs)
      have hI' : (gatherIdentityStatements { p with permissionsBoundary := none }).find?
          (fun s => s.effect == Effect.allow && stmtMatches s a r ctx) = some s0 := hI
      simp only [evaluate, hD', hI']

/-- Closed instance of `boundary_narrowing`: a user allowed `s3:GetObject`
under an allow-all boundary is still allowed once the boundary is removed. -/
theorem boundary_narrowing_witness :
    (evaluate { pBounded with permissionsBoundary := none }
        "s3:GetObject" "r" [] none none).outcome = Outcome.allow :=
  boundary_narrowing pBounded "s3:GetObject" "r" [] none none stmtAllowGet
    (by decide) (by decide) (by decide)

/-- C4: a condition entry whose key is absent from the supplied request
context evaluates to false — not an error and not skipped — so a statement
guarded by it, whether Deny or Allow, never matches and never contributes;
and in the spec's MFA scenario (a Deny conditioned on
`aws:MultiFactorAuthPresent = false` plus an unconditional Allow for the same
action and resource) a request with no MFA context key yields Allow. -/
theorem condition_key_absence (ctx : Context) (e : ConditionEntry) (st : Statement)
    (a r : String)
    (habs : contextValues ctx e.key = [])
    (hmem : e ∈ st.conditions) :
    evalCondEntry ctx e = false ∧
      stmtMatches st a r ctx = false ∧
      (evaluate pMfa "s3:GetObject" "arn:aws:s3:::bucket/obj" [] none none).outcome
        = Outcome.allow := by
  have h1 : evalCondEntry ctx e = false := by
    unfold evalCondEntry
    rw [habs]
  refine ⟨h1, ?_, by decide⟩
  have h2 : st.conditions.all (fun e => evalCondEntry ctx e) = false := by
    rw [List.all_eq_false]
    exact ⟨e, hmem, by simp [h1]⟩
  simp [stmtMatches, h2]

/-- Closed instance of `condition_key_absence` at the spec's MFA scenario. -/
theorem condition_key_absence_witness :
    evalCondEntry [] mfaCond = false ∧
      stmtMatches stmtDenyNoMfa "s3:GetObject" "r" [] = false ∧
      (evaluate pMfa "s3:GetObject" "arn:aws:s3:::bucket/obj" [] none none).outcome
        = Outcome.allow :=
  condition_key_absence [] mfaCond stmtDenyNoMfa "s3:GetObject" "r"
    (by decide) (by decide)

/-- C5: for every well-formed request (action and resource present) the
engine returns a Decision and never an error, while a malformed request
(missing action or resource) fails with exactly `InvalidRequestError`. -/
theorem evaluation_totality (p : Principal) (ctx : Context) (rp : Option Policy)
    (ro : Option String) :
    (∀ a r, evaluateRequest p (some a) (some r) ctx rp ro
        = Except.ok (evaluate p a r ctx rp ro)) ∧
    (∀ a? r?, a? = none ∨ r? = none →
      evaluateRequest p a? r? ctx rp ro
        = Except.error RequestError.invalidRequestError) := by
  constructor
  · intro a r
    rfl
  · rintro a? r? (rfl | rfl)
    · cases r? <;> rfl
    · cases a? <;> rfl

/-- Closed instance of `evaluation_totality`: a well-formed request returns a
Decision, a request missing its action raises `InvalidRequestError`. -/
theorem evaluation_totality_witness :
    evaluateRequest pEmpty (some "a") (some "r") [] none none
        = Except.ok (evaluate pEmpty "a" "r" [] none none) ∧
      evaluateRequest pEmpty none (some "r") [] none none
        = Except.error RequestError.invalidRequestError :=
  ⟨(evaluation_totality pEmpty [] none none).1 "a" "r",
   (evaluation_totality pEmpty [] none none).2 none (some "r") (Or.inl rfl)⟩

end Engine


namespace Cli

theorem splitChar_ne_nil (sep : Char) (s : CStr) : splitChar sep s ≠ [] := by
  cases s with
  | nil => simp [splitChar]
  | cons c cs =>
    simp only [splitChar]
    by_cases h : c = sep <;> simp [h]

theorem splitChar_length_lt_two (sep : Char) (s : CStr) :
    (splitChar sep s).length < 2 ↔ sep ∉ s := by
  induction s with
  | nil => simp [splitChar]
  | cons c cs ih =>
    simp only [splitChar]
    by_cases h : c = sep
    · subst h
      rw [if_pos rfl]
      constructor
      · intro hlen
        exfalso
        cases hr : splitChar c cs with
        | nil => exact absurd hr (splitChar_ne_nil c cs)
        | cons x t =>
          rw [hr] at hlen
          simp only [List.length_cons] at hlen
          omega
      · intro hmem
        exact absurd (List.mem_cons_self c cs) hmem
    · rw [if_neg h]
      cases hr : splitChar sep cs with
      | nil => exact absurd hr (splitChar_ne_nil sep cs)
      | cons x t =>
        rw [hr] at ih
        simp only [hr, List.tail_cons, List.length_cons, List.mem_cons] at ih ⊢
        constructor
        · intro hlen hor
          rcases hor with h1 | h2
          · exact h h1.symm
          · exact (ih.mp hlen) h2
        · intro hmem
          exact ih.mpr (fun h2 => hmem (Or.inr h2))

theorem splitChar_first (sep : Char) (k v : CStr) (hk : sep ∉ k) :
    splitChar sep (k ++ sep :: v) = k :: splitChar sep v := by
  induction k with
  | nil => simp [splitChar]
  | cons c cs ih =>
    have hc : ¬ c = sep := fun h => hk (by simp [h])
    have hcs : sep ∉ cs := fun h => hk (List.mem_cons_of_mem c h)
    have ih2 : splitChar sep (cs.append (sep :: v)) = cs :: splitChar sep v := ih hcs
    simp only [List.cons_append, splitChar, if_neg hc, ih2, List.headD_cons,
      List.tail_cons]

theorem joinChar_splitChar (sep : Char) (s : CStr) :
    joinChar sep (splitChar sep s) = s := by
  induction s with
  | nil => simp [splitChar, joinChar]
  | cons c cs ih =>
    simp only [splitChar]
    by_cases h : c = sep
    · subst h
      rw [if_pos rfl]
      cases hr : splitChar c cs with
      | nil => exact absurd hr (splitChar_ne_nil c cs)
      | cons x t =>
        rw [hr] at ih
        simp only [joinChar]
        rw [ih]
        simp
    · rw [if_neg h]
      cases hr : splitChar sep cs with
      | nil => exact absurd hr (splitChar_ne_nil sep cs)
      | cons x t =>
        rw [hr] at ih
        simp only [List.headD_cons, List.tail_cons]
        cases t with
        | nil =>
          simp only [joinChar] at ih ⊢
          rw [ih]
        | cons t1 ts =>
          simp only [joinChar, List.cons_append] at ih ⊢
          rw [ih]

theorem processConditionArgs_bad (args : List CStr) (acc : List (CStr × CStr))
    (h : ∃ a ∈ args, '=' ∉ a) : processConditionArgs args acc = none := by
  induction args generalizing acc with
  | nil => simp at h
  | cons a rest ih =>
    obtain ⟨b, hb, hbne⟩ := h
    simp only [processConditionArgs]
    rcases List.mem_cons.mp hb with rfl | hbr
    · rw [if_pos ((splitChar_length_lt_two '=' b).mpr hbne)]
    · by_cases hlen : (splitChar '=' a).length < 2
      · rw [if_pos hlen]
      · rw [if_neg hlen]
        exact ih _ ⟨b, hbr, hbne⟩

end Cli

namespace Cli

theorem dictFind_overwrite (d : List (CStr × CStr)) (k v : CStr)
    (h : d.any (fun p => p.1 == k) = true) :
    dictFind (d.map (fun p => if p.1 == k then (k, v) else p)) k = some v := by
  induction d with
  | nil => simp at h
  | cons q t ih =>
    by_cases hq : (q.1 == k) = true
    · simp only [List.map_cons, if_pos hq]
      unfold dictFind
      rw [List.find?_cons_of_pos _ (by simp)]
      rfl
    · simp only [List.any_cons, Bool.or_eq_true] at h
      rcases h with h1 | h2
      · exact absurd h1 hq
      · simp only [List.map_cons, if_neg hq]
        unfold dictFind at ih ⊢
        rw [@List.find?_cons_of_neg _ (fun p => p.1 == k) q _ hq]
        exact ih h2

theorem dictFind_append_new (d : List (CStr × CStr)) (k v : CStr)
    (h : d.any (fun p => p.1 == k) = false) :
    dictFind (d ++ [(k, v)]) k = some v := by
  unfold dictFind
  have hnone : d.find? (fun p => p.1 == k) = none := by
    rw [List.find?_eq_none]
    intro p hp
    exact List.any_eq_false.mp h p hp
  rw [List.find?_append, hnone]
  simp

theorem dictFind_dictUpdate (d : List (CStr × CStr)) (k v : CStr) :
    dictFind (dictUpdate d k v) k = some v := by
  unfold dictUpdate
  by_cases h : d.any (fun p => p.1 == k) = true
  · rw [if_pos h]
    exact dictFind_overwrite d k v h
  · rw [if_neg h]
    refine dictFind_append_new d k v ?_
    cases hcase : d.any (fun p => p.1 == k) with
    | false => rfl
    | true => exact absurd hcase h

theorem dictUpdate_keys_nodup (d : List (CStr × CStr)) (k v : CStr)
    (hd : (d.map Prod.fst).Nodup) :
    ((dictUpdate d k v).map Prod.fst).Nodup := by
  unfold dictUpdate
  by_cases h : d.any (fun p => p.1 == k) = true
  · rw [if_pos h]
    have hkeys : (d.map (fun p => if p.1 == k then (k, v) else p)).map Prod.fst
        = d.map Prod.fst := by
      rw [List.map_map]
      apply List.map_congr_left
      intro p _
      by_cases hp1 : (p.1 == k) = true
      · simp only [Function.comp_apply, if_pos hp1]
        exact (beq_iff_eq.mp hp1).symm
      · simp only [Function.comp_apply, if_neg hp1]
    rw [hkeys]
    exact hd
  · rw [if_neg h]
    have hb : d.any (fun p => p.1 == k) = false := by
      cases hcase : d.any (fun p => p.1 == k) with
      | false => rfl
      | true => exact absurd hcase h
    have hk : k ∉ d.map Prod.fst := by
      intro hmem
      obtain ⟨p, hp, hpk⟩ := List.mem_map.mp hmem
      have hf : ¬ (p.1 == k) = true := List.any_eq_false.mp hb p hp
      exact hf (beq_iff_eq.mpr hpk)
    simp [List.nodup_append, hd, hk]

end Cli

namespace Cli

/-- C7: for every argquery invocation whose condition arguments are all
well-formed and which does not hit the grab-resource-policy-without-session
error, the query engine is invoked with exactly the structured request —
principal identifier, action, resource, the condition mapping built from the
condition arguments, the preset name, the skip-admin flag, the optional
resource-policy document, the optional resource owner, and the
include-unauthorized flag — with no field dropped, reordered, or substituted,
and the handler then returns 0. -/
theorem argquery_passes_fields (pa : CliParsedArgs) (conds : List (CStr × CStr))
    (hc : processConditionArgs (pa.condition.getD []) [] = some conds)
    (hsess : ¬(pa.grab_resource_policy = true ∧ pa.account.isSome = true)) :
    handle_argquery pa = HandlerResult.ran
      ⟨pa.principal, pa.action, pa.resource, conds, pa.preset, pa.skip_admin,
        (if pa.grab_resource_policy then ResourcePolicySource.pulled pa.resource
         else if truthy pa.resource_policy_text then
           ResourcePolicySource.fromText (pa.resource_policy_text.getD [])
         else ResourcePolicySource.noPolicy),
        pa.resource_owner, pa.include_unauthorized⟩ 0 := by
  by_cases hg : pa.grab_resource_policy = true
  · cases hacct : pa.account with
    | some x => exact absurd ⟨hg, by rw [hacct]; rfl⟩ hsess
    | none =>
      have hs : grab_session pa = some ⟨pa.profile⟩ := by
        unfold grab_session
        rw [hacct]
      simp only [handle_argquery, hc, hs, hg, if_true]
  · simp only [handle_argquery, hc, hg, if_false, Bool.false_eq_true]
    by_cases ht : truthy pa.resource_policy_text = true
    · simp only [ht, if_true]
    · simp only [ht, if_false, Bool.false_eq_true]

/-- Closed instance of `argquery_passes_fields` at a concrete invocation with
one condition argument. -/
theorem argquery_passes_fields_witness :
    handle_argquery paCond = HandlerResult.ran
      ⟨"u1".data, "s3:GetObject".data, "*".data,
        [("aws:username".data, "alice".data)], none, false,
        ResourcePolicySource.noPolicy, none, false⟩ 0 := by
  have h := argquery_passes_fields paCond [("aws:username".data, "alice".data)]
    (by decide) (by decide)
  simpa using h

/-- C8: each argquery condition argument is split at its first equals sign —
the key is the text before it, the value everything after it, embedded equals
signs preserved; an argument with no equals sign makes the handler print a
format error and return 64 without invoking the query engine; and a repeated
key overwrites the earlier value, so the built condition context maps each key
to exactly one string value. -/
theorem condition_arg_parsing :
    (∀ pa : CliParsedArgs, (∃ a ∈ pa.condition.getD [], '=' ∉ a) →
        handle_argquery pa = HandlerResult.exited 64) ∧
    (∀ (args : List CStr) (acc : List (CStr × CStr)) (k v : CStr), '=' ∉ k →
        processConditionArgs ((k ++ '=' :: v) :: args) acc
          = processConditionArgs args (dictUpdate acc k v)) ∧
    (∀ (d : List (CStr × CStr)) (k v : CStr), dictFind (dictUpdate d k v) k = some v) ∧
    (∀ (d : List (CStr × CStr)) (k v : CStr),
        (d.map Prod.fst).Nodup → ((dictUpdate d k v).map Prod.fst).Nodup) := by
  refine ⟨?_, ?_, dictFind_dictUpdate, dictUpdate_keys_nodup⟩
  · intro pa h
    simp only [handle_argquery, processConditionArgs_bad _ _ h]
  · intro args acc k v hk
    have h1 : splitChar '=' (k ++ '=' :: v) = k :: splitChar '=' v :=
      splitChar_first '=' k v hk
    have h2 : ¬ ((k :: splitChar '=' v).length < 2) := by
      cases hr : splitChar '=' v with
      | nil => exact absurd hr (splitChar_ne_nil '=' v)
      | cons x t =>
        simp only [List.length_cons]
        omega
    simp only [processConditionArgs, h1, if_neg h2, List.headD_cons, List.tail_cons,
      joinChar_splitChar]

/-- Closed instance of `condition_arg_parsing`: a missing equals sign exits
with 64; `a=b=c` splits into key `a` and value `b=c`; a repeated key keeps only
the latest value. -/
theorem condition_arg_parsing_witness :
    handle_argquery paCondBad = HandlerResult.exited 64 ∧
      processConditionArgs (("a".data ++ '=' :: "b=c".data) :: []) []
          = processConditionArgs [] (dictUpdate [] "a".data "b=c".data) ∧
      dictFind (dictUpdate [("a".data, "1".data)] "a".data "2".data) "a".data
        = some "2".data :=
  ⟨condition_arg_parsing.1 paCondBad ⟨"noequalssign".data, by decide, by decide⟩,
   condition_arg_parsing.2.1 [] [] "a".data "b=c".data (by decide),
   condition_arg_parsing.2.2.1 [("a".data, "1".data)] "a".data "2".data⟩

/-- C9 counterexample: with `--grab-resource-policy` set and `--account`
supplied but a malformed condition argument, `handle_argquery` prints the
format error and returns 64 — it does not raise ValueError. -/
theorem grab_policy_offline_counterexample :
    paOfflineBadCond.grab_resource_policy = true ∧
      paOfflineBadCond.account.isSome = true ∧
      handle_argquery paOfflineBadCond = HandlerResult.exited 64 ∧
      handle_argquery paOfflineBadCond ≠ HandlerResult.raised PyExn.valueError := by
  decide

/-- C9 (amended): with `--grab-resource-policy` set while `--account` was
supplied (so no botocore session exists), `handle_query` raises a plain
`ValueError` — not one of the spec's typed errors — before any query is
executed, and `handle_argquery` does the same provided its condition arguments
are well-formed (a malformed condition argument instead returns 64 first); in
both cases no query-engine call is made. -/
theorem grab_policy_offline_raises (pa : CliParsedArgs)
    (hg : pa.grab_resource_policy = true) (ha : pa.account.isSome = true) :
    handle_query pa = HandlerResult.raised PyExn.valueError ∧
      ∀ conds, processConditionArgs (pa.condition.getD []) [] = some conds →
        handle_argquery pa = HandlerResult.raised PyExn.valueError := by
  have hs : grab_session pa = none := by
    cases hacct : pa.account with
    | none => rw [hacct] at ha; simp at ha
    | some x =>
      unfold grab_session
      rw [hacct]
  constructor
  · simp only [handle_query, hs, hg, if_true]
  · intro conds hc
    simp only [handle_argquery, hc, hs, hg, if_true]

/-- Closed instance of `grab_policy_offline_raises` at a concrete offline
invocation: both handlers raise ValueError. -/
theorem grab_policy_offline_witness :
    handle_query paOffline = HandlerResult.raised PyExn.valueError ∧
      handle_argquery paOffline = HandlerResult.raised PyExn.valueError :=
  ⟨(grab_policy_offline_raises paOffline (by decide) (by decide)).1,
   (grab_policy_offline_raises paOffline (by decide) (by decide)).2 [] (by decide)⟩

end Cli

namespace Cli

theorem handle_query_ran_zero (pa : CliParsedArgs) :
    ∀ c n, handle_query pa = HandlerResult.ran c n → n = 0 := by
  intro c n h
  simp only [handle_query] at h
  split at h
  · split at h
    · simp at h
    · injection h with h1 h2
      omega
  · split at h
    · injection h with h1 h2
      omega
    · injection h with h1 h2
      omega

theorem handle_argquery_ran_zero (pa : CliParsedArgs) :
    ∀ c n, handle_argquery pa = HandlerResult.ran c n → n = 0 := by
  intro c n h
  simp only [handle_argquery] at h
  split at h
  · simp at h
  · split at h
    · split at h
      · simp at h
      · injection h with h1 h2
        omega
    · split at h
      · injection h with h1 h2
        omega
      · injection h with h1 h2
        omega

/-- C10: `main` returns exit code 64 when invoked with no subcommand or with a
subcommand outside the set graph, query, argquery, repl, visualize, analysis;
each recognized subcommand returns its handler's value (for graph, the return
value of the external `process_arguments`); and the query, argquery, repl,
visualize and analysis handlers each return 0 on successful completion. -/
theorem main_dispatch_codes (graphReturn : Nat) (pa : CliParsedArgs) :
    ((pa.picked_cmd = none ∨ ∀ cmd, pa.picked_cmd = some cmd →
        cmd ∉ ["graph".data, "query".data, "argquery".data, "repl".data,
               "visualize".data, "analysis".data]) →
      main graphReturn pa = HandlerResult.exited 64) ∧
    (pa.picked_cmd = some "graph".data →
      main graphReturn pa = HandlerResult.ran CliCall.graphC graphReturn) ∧
    (pa.picked_cmd = some "query".data →
      main graphReturn pa = liftResult CliCall.queryC (handle_query pa)) ∧
    (pa.picked_cmd = some "argquery".data →
      main graphReturn pa = liftResult CliCall.argqueryC (handle_argquery pa)) ∧
    (pa.picked_cmd = some "repl".data →
      main graphReturn pa = liftResult (fun _ => CliCall.replC) (handle_repl pa)) ∧
    (pa.picked_cmd = some "visualize".data →
      main graphReturn pa
        = liftResult (fun _ => CliCall.visualizeC) (handle_visualization pa)) ∧
    (pa.picked_cmd = some "analysis".data →
      main graphReturn pa
        = liftResult (fun _ => CliCall.analysisC) (handle_analysis pa)) ∧
    (∀ c n, handle_query pa = HandlerResult.ran c n → n = 0) ∧
    (∀ c n, handle_argquery pa = HandlerResult.ran c n → n = 0) ∧
    (∀ c n, handle_repl pa = HandlerResult.ran c n → n = 0) ∧
    (∀ c n, handle_visualization pa = HandlerResult.ran c n → n = 0) ∧
    (∀ c n, handle_analysis pa = HandlerResult.ran c n → n = 0) := by
  refine ⟨?_, ?_, ?_, ?_, ?_, ?_, ?_,
    handle_query_ran_zero pa, handle_argquery_ran_zero pa, ?_, ?_, ?_⟩
  · intro h
    cases hcmd : pa.picked_cmd with
    | none => simp [main, hcmd]
    | some cmd =>
      rcases h with h | h
      · rw [hcmd] at h
        exact absurd h (by simp)
      · have hne := h cmd hcmd
        have h1 : ¬ cmd = "graph".data := fun he => hne (by simp [he])
        have h2 : ¬ cmd = "query".data := fun he => hne (by simp [he])
        have h3 : ¬ cmd = "argquery".data := fun he => hne (by simp [he])
        have h4 : ¬ cmd = "repl".data := fun he => hne (by simp [he])
        have h5 : ¬ cmd = "visualize".data := fun he => hne (by simp [he])
        have h6 : ¬ cmd = "analysis".data := fun he => hne (by simp [he])
        simp [main, hcmd, h1, h2, h3, h4, h5, h6]
  · intro h
    simp only [main, h]
    rfl
  · intro h
    simp only [main, h]
    rfl
  · intro h
    simp only [main, h]
    rfl
  · intro h
    simp only [main, h]
    rfl
  · intro h
    simp only [main, h]
    rfl
  · intro h
    simp only [main, h]
    rfl
  · intro c n h
    simp only [handle_repl] at h
    injection h with h1 h2
    omega
  · intro c n h
    simp only [handle_visualization] at h
    injection h with h1 h2
    omega
  · intro c n h
    simp only [handle_analysis] at h
    injection h with h1 h2
    omega

/-- Closed instance of `main_dispatch_codes`: no subcommand exits 64, and an
argquery invocation returns its handler's value. -/
theorem main_dispatch_codes_witness :
    main 0 paBase = HandlerResult.exited 64 ∧
      main 0 paCond = liftResult CliCall.argqueryC (handle_argquery paCond) :=
  ⟨(main_dispatch_codes 0 paBase).1 (Or.inl rfl),
   (main_dispatch_codes 0 paCond).2.2.2.1 rfl⟩

end Cli

namespace Risk

theorem steps_trans {g : Graph} {a b c : String} {i j : Nat}
    (h1 : Steps g a b i) (h2 : Steps g b c j) : Steps g a c (i + j) := by
  induction h2 with
  | refl => exact h1
  | tail _ hedge ih => exact Steps.tail ih hedge

theorem steps_zero {g : Graph} {a b : String} (h : Steps g a b 0) : a = b := by
  cases h
  rfl

theorem steps_split {g : Graph} {a c : String} {d : Nat} (h : Steps g a c d) :
    ∀ j, j ≤ d → ∃ m, Steps g a m j ∧ Steps g m c (d - j) := by
  induction h with
  | refl =>
    intro j hj
    have hj0 : j = 0 := Nat.le_zero.mp hj
    subst hj0
    exact ⟨_, Steps.refl _, Steps.refl _⟩
  | tail hab hedge ih =>
    rename_i b c' k
    intro j hj
    by_cases hjk : j ≤ k
    · obtain ⟨m, h1, h2⟩ := ih j hjk
      refine ⟨m, h1, ?_⟩
      have hsub : k + 1 - j = (k - j) + 1 := by omega
      rw [hsub]
      exact Steps.tail h2 hedge
    · have hj1 : j = k + 1 := by omega
      subst hj1
      rw [Nat.sub_self]
      exact ⟨c', Steps.tail hab hedge, Steps.refl c'⟩

theorem isDist_unique {g : Graph} {s n : String} {d d' : Nat}
    (h : IsDist g s n d) (h' : IsDist g s n d') : d = d' :=
  Nat.le_antisymm (h.2 d' h'.1) (h'.2 d h.1)

theorem isDist_of_steps {g : Graph} {s n : String} {k : Nat}
    (h : Steps g s n k) : ∃ d, d ≤ k ∧ IsDist g s n d := by
  classical
  have hex : ∃ m, Steps g s n m := ⟨k, h⟩
  exact ⟨Nat.find hex, Nat.find_min' hex h, Nat.find_spec hex,
    fun m hm => Nat.find_min' hex hm⟩

theorem isDist_prefix {g : Graph} {s n : String} {d : Nat} (h : IsDist g s n d) :
    ∀ j, j ≤ d → ∃ m, IsDist g s m j := by
  intro j hj
  obtain ⟨m, h1, h2⟩ := steps_split h.1 j hj
  refine ⟨m, h1, ?_⟩
  intro j' hj'
  by_contra hc
  have hlt : j' < j := by omega
  have hsteps := steps_trans hj' h2
  have hmin := h.2 _ hsteps
  omega

theorem isDist_zero_self (g : Graph) (s : String) : IsDist g s s 0 :=
  ⟨Steps.refl s, fun k _ => Nat.zero_le k⟩

theorem isDist_zero_eq {g : Graph} {s n : String} (h : IsDist g s n 0) : n = s :=
  (steps_zero h.1).symm

theorem isDist_succ_inv {g : Graph} {s c : String} {d : Nat}
    (h : IsDist g s c (d + 1)) :
    ∃ b, IsDist g s b d ∧ c ∈ successors g b := by
  cases h.1 with
  | tail hab hedge =>
    rename_i b
    refine ⟨b, ⟨hab, ?_⟩, hedge⟩
    intro j hj
    by_contra hc
    have hlt : j < d := by omega
    have := h.2 (j + 1) (Steps.tail hj hedge)
    omega

theorem isDist_succ_intro {g : Graph} {s b c : String} {d : Nat}
    (hb : IsDist g s b d) (hedge : c ∈ successors g b)
    (hnew : ¬ ∃ k, k ≤ d ∧ Steps g s c k) : IsDist g s c (d + 1) := by
  refine ⟨Steps.tail hb.1 hedge, ?_⟩
  intro k hk
  by_contra hc
  exact hnew ⟨k, by omega, hk⟩

theorem exists_isDist_le_iff {g : Graph} {s c : String} {d : Nat} :
    (∃ k, k ≤ d ∧ Steps g s c k) ↔ ∃ j, j ≤ d ∧ IsDist g s c j := by
  constructor
  · rintro ⟨k, hk, hs⟩
    obtain ⟨j, hj, hd⟩ := isDist_of_steps hs
    exact ⟨j, le_trans hj hk, hd⟩
  · rintro ⟨j, hj, hd⟩
    exact ⟨j, hj, hd.1⟩

theorem successors_subset_nodes {g : Graph} (hclosed : EdgeClosed g)
    {b c : String} (h : c ∈ successors g b) : c ∈ nodeIds g := by
  unfold successors at h
  obtain ⟨e, he, hdest⟩ := List.mem_map.mp h
  rw [← hdest]
  exact (hclosed e (List.mem_filter.mp he).1).2

theorem mem_nextFrontier {g : Graph} {visited frontier : List String} {m : String} :
    m ∈ nextFrontier g visited frontier ↔
      (∃ b ∈ frontier, m ∈ successors g b) ∧ m ∉ visited ∧ m ∉ frontier := by
  unfold nextFrontier
  simp [List.mem_dedup, List.mem_filter, List.mem_flatMap]

end Risk

namespace Risk

theorem bfsLevels_spec (g : Graph) (src : String)
    (hclosed : EdgeClosed g) (hnodes : (nodeIds g).Nodup) :
    ∀ (fuel : Nat) (visited frontier : List String) (d : Nat),
      (∀ x, x ∈ visited ↔ ∃ j, j < d ∧ IsDist g src x j) →
      (∀ x, x ∈ frontier ↔ IsDist g src x d) →
      visited.Nodup → frontier.Nodup →
      (∀ x ∈ visited, x ∈ nodeIds g) → (∀ x ∈ frontier, x ∈ nodeIds g) →
      ((nodeIds g).length + 1 ≤ fuel + visited.length) →
      ∀ n k, ((n, k) ∈ bfsLevels g fuel visited frontier d ↔
        d ≤ k ∧ IsDist g src n k) := by
  intro fuel
  induction fuel with
  | zero =>
    intro visited frontier d hvis hfro hnv hnf hsubv hsubf hbudget n k
    exfalso
    have hsub : visited ⊆ nodeIds g := hsubv
    have hlen : visited.length ≤ (nodeIds g).length :=
      List.Subperm.length_le (List.subperm_of_subset hnv hsub)
    omega
  | succ fuel ih =>
    intro visited frontier d hvis hfro hnv hnf hsubv hsubf hbudget n k
    by_cases hemp : frontier.isEmpty = true
    · have hfe : frontier = [] := List.isEmpty_iff.mp hemp
      simp only [bfsLevels, hemp, if_true]
      simp only [List.not_mem_nil, false_iff]
      rintro ⟨hdk, hdist⟩
      obtain ⟨m, hm⟩ := isDist_prefix hdist d hdk
      have hmem : m ∈ frontier := (hfro m).mpr hm
      rw [hfe] at hmem
      exact absurd hmem (List.not_mem_nil m)
    · simp only [bfsLevels, if_neg hemp]
      have hfne : frontier ≠ [] := fun h => hemp (by simp [h])
      have hvis' : ∀ x, x ∈ visited ++ frontier ↔ ∃ j, j < d + 1 ∧ IsDist g src x j := by
        intro x
        rw [List.mem_append, hvis x, hfro x]
        constructor
        · rintro (⟨j, hj, hdj⟩ | hdj)
          · exact ⟨j, by omega, hdj⟩
          · exact ⟨d, by omega, hdj⟩
        · rintro ⟨j, hj, hdj⟩
          by_cases hjd : j < d
          · exact Or.inl ⟨j, hjd, hdj⟩
          · have hjeq : j = d := by omega
            subst hjeq
            exact Or.inr hdj
      have hfro' : ∀ x, x ∈ nextFrontier g visited frontier ↔ IsDist g src x (d + 1) := by
        intro x
        rw [mem_nextFrontier]
        constructor
        · rintro ⟨⟨b, hb, hedge⟩, hxv, hxf⟩
          refine isDist_succ_intro ((hfro b).mp hb) hedge ?_
          intro hex
          obtain ⟨j, hj, hdist⟩ := exists_isDist_le_iff.mp hex
          by_cases hjd : j < d
          · exact hxv ((hvis x).mpr ⟨j, hjd, hdist⟩)
          · have hjeq : j = d := by omega
            subst hjeq
            exact hxf ((hfro x).mpr hdist)
        · intro hdist
          obtain ⟨b, hb, hedge⟩ := isDist_succ_inv hdist
          refine ⟨⟨b, (hfro b).mpr hb, hedge⟩, ?_, ?_⟩
          · intro hxv
            obtain ⟨j, hj, hdj⟩ := (hvis x).mp hxv
            have := isDist_unique hdj hdist
            omega
          · intro hxf
            have := isDist_unique ((hfro x).mp hxf) hdist
            omega
      have hnv' : (visited ++ frontier).Nodup := by
        refine List.Nodup.append hnv hnf ?_
        intro a hav haf
        obtain ⟨j, hj, hdj⟩ := (hvis a).mp hav
        have := isDist_unique hdj ((hfro a).mp haf)
        omega
      have hnf' : (nextFrontier g visited frontier).Nodup := List.nodup_dedup _
      have hsubv' : ∀ x ∈ visited ++ frontier, x ∈ nodeIds g := by
        intro x hx
        rcases List.mem_append.mp hx with h | h
        · exact hsubv x h
        · exact hsubf x h
      have hsubf' : ∀ x ∈ nextFrontier g visited frontier, x ∈ nodeIds g := by
        intro x hx
        obtain ⟨⟨b, _, hedge⟩, _, _⟩ := mem_nextFrontier.mp hx
        exact successors_subset_nodes hclosed hedge
      have hbudget' : (nodeIds g).length + 1 ≤ fuel + (visited ++ frontier).length := by
        have hpos : 0 < frontier.length := List.length_pos.mpr hfne
        rw [List.length_append]
        omega
      have hrec := ih (visited ++ frontier) (nextFrontier g visited frontier) (d + 1)
        hvis' hfro' hnv' hnf' hsubv' hsubf' hbudget'
      rw [List.mem_append, hrec n k]
      constructor
      · rintro (hmem | ⟨hk, hdist⟩)
        · obtain ⟨m, hm, heq⟩ := List.mem_map.mp hmem
          injection heq with h1 h2
          subst h1
          subst h2
          exact ⟨le_refl d, (hfro m).mp hm⟩
        · exact ⟨by omega, hdist⟩
      · rintro ⟨hk, hdist⟩
        by_cases hkd : k = d
        · subst hkd
          exact Or.inl (List.mem_map.mpr ⟨n, (hfro n).mpr hdist, rfl⟩)
        · exact Or.inr ⟨by omega, hdist⟩

theorem bfs_spec (g : Graph) (src : String) (hclosed : EdgeClosed g)
    (hnodes : (nodeIds g).Nodup) (hsrc : src ∈ nodeIds g) :
    ∀ n k, ((n, k) ∈ bfs g src ↔ IsDist g src n k) := by
  intro n k
  have hvis : ∀ x, x ∈ ([] : List String) ↔ ∃ j, j < 0 ∧ IsDist g src x j := by
    intro x
    simp
  have hfro : ∀ x, x ∈ [src] ↔ IsDist g src x 0 := by
    intro x
    simp only [List.mem_singleton]
    constructor
    · rintro rfl
      exact isDist_zero_self _ _
    · intro h
      exact isDist_zero_eq h
  have hbudget : (nodeIds g).length + 1
      ≤ (g.principals.length + 1) + ([] : List String).length := by
    simp [nodeIds]
  have h := bfsLevels_spec g src hclosed hnodes (g.principals.length + 1) [] [src] 0
    hvis hfro (List.nodup_nil) (List.nodup_singleton src)
    (by intro x hx; simp at hx) (by intro x hx; simp at hx; subst hx; exact hsrc)
    hbudget n k
  unfold bfs
  rw [h]
  simp

end Risk

namespace Risk

/-- C6: for every finite Graph satisfying the spec's invariants (unique
principal identifiers, edges between principals of the graph) — cyclic edge
collections included — the breadth-first path search terminates (it is a total
function whose result is characterized independently of its fuel) and
`find_escalation_paths` reports a zero-hop finding for each administrator-
equivalent principal and, for every other principal, each administrator-
equivalent principal it can reach together with the length of a shortest
escalation path; the visited-set tracking makes the breadth-first levels
exactly the shortest-distance layers, so cycles cannot cause looping. -/
theorem find_escalation_paths_shortest (g : Graph)
    (hclosed : EdgeClosed g) (hnodes : (nodeIds g).Nodup) :
    ∀ s t d, ((⟨s, t, d⟩ : Finding) ∈ find_escalation_paths g ↔
      ((s ∈ adminIds g ∧ t = s ∧ d = 0) ∨
       (s ∈ nodeIds g ∧ s ∉ adminIds g ∧ t ∈ adminIds g ∧ IsDist g s t d))) := by
  intro s t d
  unfold find_escalation_paths
  rw [List.mem_append]
  constructor
  · rintro (h | h)
    · obtain ⟨a, ha, heq⟩ := List.mem_map.mp h
      injection heq with h1 h2 h3
      exact Or.inl ⟨h1 ▸ ha, h1 ▸ h2.symm, h3.symm⟩
    · obtain ⟨srcN, hsrcN, hmem⟩ := List.mem_flatMap.mp h
      rw [List.mem_filter] at hsrcN
      obtain ⟨hsrcNodes, hsrcNotAdmin⟩ := hsrcN
      obtain ⟨nd, hnd, hif⟩ := List.mem_filterMap.mp hmem
      by_cases hadm : (adminIds g).contains nd.1 = true
      · rw [if_pos hadm] at hif
        injection hif with hf
        injection hf with h1 h2 h3
        subst h1
        subst h2
        subst h3
        refine Or.inr ⟨hsrcNodes, by simpa using hsrcNotAdmin, by simpa using hadm, ?_⟩
        exact (bfs_spec g srcN hclosed hnodes hsrcNodes nd.1 nd.2).mp (by simpa using hnd)
      · rw [if_neg hadm] at hif
        exact absurd hif (by simp)
  · rintro (⟨hs, rfl, rfl⟩ | ⟨hn, hna, hta, hdist⟩)
    · exact Or.inl (List.mem_map.mpr ⟨_, hs, rfl⟩)
    · refine Or.inr (List.mem_flatMap.mpr ⟨s, ?_, ?_⟩)
      · rw [List.mem_filter]
        exact ⟨hn, by simpa using hna⟩
      · refine List.mem_filterMap.mpr ⟨(t, d), (bfs_spec g s hclosed hnodes hn t d).mpr hdist, ?_⟩
        rw [if_pos (by simpa using hta)]

/-- Closed instance of `find_escalation_paths_shortest` at the spec's
2-principal-cycle scenario: on the cyclic graph the search reports `B` one hop
and `A` two hops away from the administrator-equivalent `C`. -/
theorem find_escalation_paths_shortest_witness :
    IsDist gCyc "A" "C" 2 ∧ IsDist gCyc "B" "C" 1 := by
  have hclosed : EdgeClosed gCyc := by
    unfold EdgeClosed
    decide
  have hA := (find_escalation_paths_shortest gCyc hclosed (by decide)
    "A" "C" 2).mp (by decide)
  have hB := (find_escalation_paths_shortest gCyc hclosed (by decide)
    "B" "C" 1).mp (by decide)
  constructor
  · rcases hA with h | h
    · exact absurd h.1 (by decide)
    · exact h.2.2.2
  · rcases hB with h | h
    · exact absurd h.1 (by decide)
    · exact h.2.2.2

end Risk
